import Mathlib

/-!
Verification of the evmap sparse-keymap engine.

This file gives a shallow embedding of the sparse keymap lookup/mutate engine
of `mod_sparse-keymap-all/sparse-keymap-all.c` (the kernel-module replacement
for `sparse_keymap_getkeycode` / `sparse_keymap_setkeycode`) together with the
option-processing loop of the `evmap` enumeration client, and proves the
behavioural properties stated in the specification about them.

Modelling conventions:
* The `KE_END`-terminated `struct key_entry` array behind `dev->keycode` is
  modelled as a `List key_entry` holding exactly the entries before the
  terminator (all iteration in the C source is `for (...; key->type != KE_END;
  key++)`, i.e. exactly a walk of that list).  A `NULL` `dev->keycode` is not
  modelled; both engine entry points return `-EINVAL` for it without touching
  any state.
* C pointers into the table are modelled as a pair `(index, entry)`.
* `dev->keybit` is modelled as the `Finset ℕ` of keycodes whose bit is set;
  `set_bit`/`clear_bit` become `insert`/`erase`.
* Machine integers are naturals; the scancode buffer of the wire record is a
  list of bytes (`Fin 256`), machine-endian scalar conversion is little-endian
  (the module's instruction-pointer redirection path targets x86).
-/

/-- Entry types of `struct key_entry` (linux/input/sparse-keymap.h).  `KE_END`
terminates the array and is not part of the modelled table; `KE_SW` stands for
the remaining non-key types (`KE_SW`, `KE_VSW`, `KE_KEY_UNLOCK`), which the
engine under verification never treats specially. -/
inductive KeType
  | KE_KEY
  | KE_IGNORE
  | KE_SW
deriving DecidableEq, Repr

/-- One row of the sparse keymap, `struct key_entry` (the struct itself comes
from the kernel header, not this repository): an entry type, the stored
scancode in its canonical machine-endian `u32` form (`code`), and the mapped
keycode.  Keycodes are modelled as naturals. -/
structure key_entry where
  type : KeType
  code : Nat
  keycode : Nat
deriving DecidableEq, Repr

/-- The wire record `struct input_keymap_entry` used by the
`EVIOCGKEYCODE_V2`/`EVIOCSKEYCODE_V2` ioctls (reproduced in a comment in the
client source): `flags` (bit 0 = `INPUT_KEYMAP_BY_INDEX`), `len` (number of
valid scancode bytes), `index`, `keycode`, and the 32-byte scancode buffer.
The buffer is modelled as a byte list; positions beyond the list read as 0. -/
structure input_keymap_entry where
  flags : Nat
  len : Nat
  index : Nat
  keycode : Nat
  scancode : List (Fin 256)
deriving DecidableEq, Repr

/-- The relevant state of `struct input_dev`: the sparse keymap table behind
`dev->keycode` and the active-keycode bitmap `dev->keybit`. -/
structure input_dev where
  keycode : List key_entry
  keybit : Finset ℕ
deriving DecidableEq

/-- Little-endian value of a byte list (byte 0 is least significant). -/
def leValue : List (Fin 256) → Nat
  | [] => 0
  | b :: bs => b.val + 256 * leValue bs

/-- The four little-endian bytes of a `u32` value, as read out of memory by
`memcpy(ke->scancode, &key->code, sizeof(key->code))`. -/
def u32le (c : Nat) : List (Fin 256) :=
  [⟨c % 256, by omega⟩, ⟨c / 256 % 256, by omega⟩,
   ⟨c / 65536 % 256, by omega⟩, ⟨c / 16777216 % 256, by omega⟩]

/-- Kernel helper `input_scancode_to_scalar` (drivers/input/input.c; external
to this repository but called by `sparse_keymap_locate_all`): reads the
scancode buffer as a machine-endian `u8`/`u16`/`u32` according to `ke->len`
and rejects every other length with `-EINVAL` (modelled as `none`). -/
def input_scancode_to_scalar (ke : input_keymap_entry) : Option Nat :=
  if ke.len = 1 ∨ ke.len = 2 ∨ ke.len = 4 then
    some (leValue (ke.scancode.take ke.len))
  else
    none

/-- `sparse_keymap_entry_by_index_all`: walk the table counting entries until
the requested index; the pointer result is modelled as `(index, entry)`. -/
def sparse_keymap_entry_by_index_all : List key_entry → Nat → Option (Nat × key_entry)
  | [], _ => none
  | key :: _, 0 => some (0, key)
  | _ :: rest, n + 1 =>
    (sparse_keymap_entry_by_index_all rest n).map (fun p => (p.1 + 1, p.2))

/-- `sparse_keymap_entry_from_scancode_all`: linear scan in table order,
returning (the pointer to) the first entry whose stored `code` equals the
requested scalar. -/
def sparse_keymap_entry_from_scancode_all : List key_entry → Nat → Option (Nat × key_entry)
  | [], _ => none
  | key :: rest, code =>
    if code = key.code then some (0, key)
    else (sparse_keymap_entry_from_scancode_all rest code).map (fun p => (p.1 + 1, p.2))

/-- The kernel's `sparse_keymap_entry_from_keycode` called by the keybit
update (its body is reproduced verbatim, commented out, in the module source):
first entry with `type == KE_KEY` and the given keycode. -/
def sparse_keymap_entry_from_keycode : List key_entry → Nat → Option key_entry
  | [], _ => none
  | key :: rest, keycode =>
    if key.type = KeType.KE_KEY ∧ key.keycode = keycode then some key
    else sparse_keymap_entry_from_keycode rest keycode

/-- `sparse_keymap_get_key_index`: count the entries strictly before the given
pointer (modelled by its index); used to fill the response index on a
by-scancode get. -/
def sparse_keymap_get_key_index : List key_entry → Nat → Nat
  | [], _ => 0
  | _ :: _, 0 => 0
  | _ :: rest, n + 1 => sparse_keymap_get_key_index rest n + 1

/-- `sparse_keymap_locate_all`: dispatch on bit 0 of `ke->flags`
(`INPUT_KEYMAP_BY_INDEX`): by-index lookup, else convert the scancode bytes to
a scalar and scan; a failed scalar conversion locates nothing. -/
def sparse_keymap_locate_all (table : List key_entry) (ke : input_keymap_entry) :
    Option (Nat × key_entry) :=
  if ke.flags % 2 = 1 then
    sparse_keymap_entry_by_index_all table ke.index
  else
    match input_scancode_to_scalar ke with
    | some scancode => sparse_keymap_entry_from_scancode_all table scancode
    | none => none

/-- `sparse_keymap_getkeycode_all`: locate the entry, then fill the response:
`ke->keycode` from the entry, `ke->index` resolved for by-scancode lookups,
`ke->len = sizeof(key->code) = 4`, and the four machine-endian bytes of
`key->code` copied over the start of the scancode buffer.  `none` models the
`-EINVAL` return. -/
def sparse_keymap_getkeycode_all (dev : input_dev) (ke : input_keymap_entry) :
    Option input_keymap_entry :=
  match sparse_keymap_locate_all dev.keycode ke with
  | none => none
  | some (i, key) =>
    some { ke with
      keycode := key.keycode
      index := if ke.flags % 2 = 1 then ke.index
               else sparse_keymap_get_key_index dev.keycode i
      len := 4
      scancode := u32le key.code ++ ke.scancode.drop 4 }

/-- The two failure paths of `sparse_keymap_setkeycode_all`; the C function
reports both as `-EINVAL`, the distinction is which check fired. -/
inductive SetError
  | notFound
  | invalidLength
deriving DecidableEq, Repr

instance {ε α : Type} [DecidableEq ε] [DecidableEq α] : DecidableEq (Except ε α) := fun
  | Except.ok a, Except.ok b =>
    if h : a = b then isTrue (by rw [h])
    else isFalse (fun hc => h (by injection hc))
  | Except.error a, Except.error b =>
    if h : a = b then isTrue (by rw [h])
    else isFalse (fun hc => h (by injection hc))
  | Except.ok _, Except.error _ => isFalse (fun hc => by injection hc)
  | Except.error _, Except.ok _ => isFalse (fun hc => by injection hc)

/-- `sparse_keymap_setkeycode_all`: locate the entry; reject a new scancode
longer than `sizeof(key->code) = 4`; apply the type transition (`KEY_RESERVED`
demotes `KE_KEY` to `KE_IGNORE`, a non-reserved keycode promotes `KE_IGNORE`
to `KE_KEY`); overwrite keycode and stored code (`key->code = 0` then
`memcpy` of `ke->len` bytes); finally update `dev->keybit`, re-scanning the
mutated table for surviving references to the old keycode.  The result pairs
the post-state with the C return value (`old_keycode` out-parameter on
success, the failed check on `-EINVAL`); the error paths return before any
mutation, exactly as the C does. -/
def sparse_keymap_setkeycode_all (dev : input_dev) (ke : input_keymap_entry) :
    input_dev × Except SetError Nat :=
  match sparse_keymap_locate_all dev.keycode ke with
  | none => (dev, Except.error SetError.notFound)
  | some (i, key) =>
    if 4 < ke.len then (dev, Except.error SetError.invalidLength)
    else
      let old_type := key.type
      let old_keycode := key.keycode
      let new_type :=
        if ke.keycode = 0 then
          if key.type = KeType.KE_KEY then KeType.KE_IGNORE else key.type
        else
          if key.type = KeType.KE_IGNORE then KeType.KE_KEY else key.type
      let new_key : key_entry :=
        { type := new_type
          keycode := ke.keycode
          code := leValue (ke.scancode.take ke.len) }
      let table := dev.keycode.set i new_key
      let kb1 :=
        if old_type = KeType.KE_KEY then
          let kb := dev.keybit.erase old_keycode
          if (sparse_keymap_entry_from_keycode table old_keycode).isSome then
            insert old_keycode kb
          else kb
        else dev.keybit
      let kb2 :=
        if new_key.type = KeType.KE_KEY then
          let kb := insert ke.keycode kb1
          if (sparse_keymap_entry_from_keycode table old_keycode).isSome then kb
          else kb.erase old_keycode
        else kb1
      ({ keycode := table, keybit := kb2 }, Except.ok old_keycode)

/-- The specification's derived active-keycode set: keycodes referenced by at
least one `KE_KEY`-type entry of the table. -/
def ActiveKeycodeSet (table : List key_entry) : Finset ℕ :=
  ((table.filter (fun e => e.type = KeType.KE_KEY)).map key_entry.keycode).toFinset

/-- Modelled from the spec (§4.3 step 4): the literal type-transition rule as
the specification words it — `new_keycode == 0 ∧ old == Key → Ignored`, else
`old == Ignored → Key`, else unchanged.  Stated for comparison with the
transition the code actually performs. -/
def specTransition (old : KeType) (new_keycode : Nat) : KeType :=
  if new_keycode = 0 ∧ old = KeType.KE_KEY then KeType.KE_IGNORE
  else if old = KeType.KE_IGNORE then KeType.KE_KEY
  else old
/-- A keycode is referenced by the table: some entry has type `KE_KEY` and
that keycode. -/
def Ref (t : List key_entry) (k : Nat) : Prop :=
  ∃ e ∈ t, e.type = KeType.KE_KEY ∧ e.keycode = k

/-- A keycode is referenced by some entry of the table other than the one at
index `i`. -/
def RefBut (t : List key_entry) (i k : Nat) : Prop :=
  ∃ j : Nat, ∃ e : key_entry,
    j ≠ i ∧ t[j]? = some e ∧ e.type = KeType.KE_KEY ∧ e.keycode = k

theorem ref_iff_getElem (t : List key_entry) (k : Nat) :
    Ref t k ↔ ∃ j : Nat, ∃ e : key_entry,
      t[j]? = some e ∧ e.type = KeType.KE_KEY ∧ e.keycode = k := by
  constructor
  · rintro ⟨e, he, h1, h2⟩
    obtain ⟨j, hj⟩ := List.mem_iff_getElem?.mp he
    exact ⟨j, e, hj, h1, h2⟩
  · rintro ⟨j, e, hj, h1, h2⟩
    exact ⟨e, List.mem_iff_getElem?.mpr ⟨j, hj⟩, h1, h2⟩

theorem ref_iff_at (t : List key_entry) (i k : Nat) (key : key_entry)
    (h : t[i]? = some key) :
    Ref t k ↔ (key.type = KeType.KE_KEY ∧ key.keycode = k) ∨ RefBut t i k := by
  rw [ref_iff_getElem]
  constructor
  · rintro ⟨j, e, hj, h1, h2⟩
    by_cases hji : j = i
    · subst hji
      rw [h] at hj
      cases hj
      exact Or.inl ⟨h1, h2⟩
    · exact Or.inr ⟨j, e, hji, hj, h1, h2⟩
  · rintro (⟨h1, h2⟩ | ⟨j, e, hji, hj, h1, h2⟩)
    · exact ⟨i, key, h, h1, h2⟩
    · exact ⟨j, e, hj, h1, h2⟩

theorem refBut_set (t : List key_entry) (i k : Nat) (e' : key_entry) :
    RefBut (t.set i e') i k ↔ RefBut t i k := by
  unfold RefBut
  constructor
  · rintro ⟨j, e, hji, hj, h1, h2⟩
    rw [List.getElem?_set_ne (Ne.symm hji)] at hj
    exact ⟨j, e, hji, hj, h1, h2⟩
  · rintro ⟨j, e, hji, hj, h1, h2⟩
    refine ⟨j, e, hji, ?_, h1, h2⟩
    rw [List.getElem?_set_ne (Ne.symm hji)]
    exact hj

theorem ref_set_iff (t : List key_entry) (i k : Nat) (e' : key_entry)
    (h : i < t.length) :
    Ref (t.set i e') k ↔ (e'.type = KeType.KE_KEY ∧ e'.keycode = k) ∨ RefBut t i k := by
  rw [ref_iff_at (t.set i e') i k e' (List.getElem?_set_self h), refBut_set]

theorem from_keycode_isSome (t : List key_entry) (k : Nat) :
    (sparse_keymap_entry_from_keycode t k).isSome = true ↔ Ref t k := by
  induction t with
  | nil => simp [sparse_keymap_entry_from_keycode, Ref]
  | cons key rest ih =>
    by_cases hm : key.type = KeType.KE_KEY ∧ key.keycode = k
    · simp only [sparse_keymap_entry_from_keycode, if_pos hm, Option.isSome_some,
        true_iff]
      exact ⟨key, List.mem_cons_self key rest, hm.1, hm.2⟩
    · simp only [sparse_keymap_entry_from_keycode, if_neg hm]
      rw [ih]
      unfold Ref
      simp only [List.mem_cons]
      constructor
      · rintro ⟨e, he, h1, h2⟩
        exact ⟨e, Or.inr he, h1, h2⟩
      · rintro ⟨e, he | he, h1, h2⟩
        · exact absurd (he ▸ ⟨h1, h2⟩) hm
        · exact ⟨e, he, h1, h2⟩

theorem mem_ActiveKeycodeSet (t : List key_entry) (k : Nat) :
    k ∈ ActiveKeycodeSet t ↔ Ref t k := by
  unfold ActiveKeycodeSet Ref
  simp only [List.mem_toFinset, List.mem_map, List.mem_filter, decide_eq_true_eq]
  constructor
  · rintro ⟨e, ⟨he, ht⟩, hk⟩
    exact ⟨e, he, ht, hk⟩
  · rintro ⟨e, he, ht, hk⟩
    exact ⟨e, ⟨he, ht⟩, hk⟩

theorem by_index_eq (t : List key_entry) (n : Nat) :
    sparse_keymap_entry_by_index_all t n = (t[n]?).map (fun e => (n, e)) := by
  induction t generalizing n with
  | nil => simp [sparse_keymap_entry_by_index_all]
  | cons key rest ih =>
    cases n with
    | zero => simp [sparse_keymap_entry_by_index_all]
    | succ n =>
      simp only [sparse_keymap_entry_by_index_all, List.getElem?_cons_succ, ih]
      cases rest[n]? <;> simp

theorem by_index_isSome (t : List key_entry) (n : Nat) :
    (sparse_keymap_entry_by_index_all t n).isSome = true ↔ n < t.length := by
  rw [by_index_eq, Option.isSome_map']
  rw [Option.isSome_iff_exists]
  constructor
  · rintro ⟨a, ha⟩
    exact (List.getElem?_eq_some_iff.mp ha).1
  · intro h
    exact ⟨t[n], List.getElem?_eq_some_iff.mpr ⟨h, rfl⟩⟩

theorem by_index_eq_some (t : List key_entry) (n i : Nat) (key : key_entry) :
    sparse_keymap_entry_by_index_all t n = some (i, key) ↔ i = n ∧ t[n]? = some key := by
  rw [by_index_eq]
  cases h : t[n]? with
  | none => simp
  | some e =>
    simp only [Option.map_some', Option.some.injEq, Prod.mk.injEq]
    constructor
    · rintro ⟨h1, h2⟩
      exact ⟨h1.symm, by rw [h2]⟩
    · rintro ⟨h1, h2⟩
      cases h2
      exact ⟨h1.symm, rfl⟩

theorem from_scancode_eq_some (t : List key_entry) (c i : Nat) (key : key_entry) :
    sparse_keymap_entry_from_scancode_all t c = some (i, key) ↔
      t[i]? = some key ∧ key.code = c ∧
        ∀ j : Nat, ∀ e : key_entry, j < i → t[j]? = some e → e.code ≠ c := by
  induction t generalizing i key with
  | nil => simp [sparse_keymap_entry_from_scancode_all]
  | cons k0 rest ih =>
    by_cases hc : c = k0.code
    · simp only [sparse_keymap_entry_from_scancode_all, if_pos hc, Option.some.injEq,
        Prod.mk.injEq]
      constructor
      · rintro ⟨h0, hk⟩
        subst hk
        refine ⟨by rw [← h0]; simp, hc.symm, ?_⟩
        intro j e hj
        omega
      · rintro ⟨h1, h2, h3⟩
        cases i with
        | zero =>
          simp only [List.getElem?_cons_zero, Option.some.injEq] at h1
          exact ⟨rfl, h1⟩
        | succ a =>
          exact absurd hc.symm (h3 0 k0 (by omega) (by simp))
    · simp only [sparse_keymap_entry_from_scancode_all, if_neg hc]
      constructor
      · intro h
        obtain ⟨⟨a, b⟩, hq, hmap⟩ := Option.map_eq_some'.mp h
        obtain ⟨hi, hb⟩ := Prod.mk.injEq .. |>.mp hmap
        subst hb
        subst hi
        obtain ⟨h1, h2, h3⟩ := (ih a b).mp hq
        refine ⟨by simpa using h1, h2, ?_⟩
        intro j e hj hje
        cases j with
        | zero =>
          simp only [List.getElem?_cons_zero, Option.some.injEq] at hje
          subst hje
          exact fun hec => hc hec.symm
        | succ j0 =>
          simp only [List.getElem?_cons_succ] at hje
          exact h3 j0 e (by omega) hje
      · rintro ⟨h1, h2, h3⟩
        cases i with
        | zero =>
          simp only [List.getElem?_cons_zero, Option.some.injEq] at h1
          subst h1
          exact absurd h2 (fun hec => hc hec.symm)
        | succ a =>
          simp only [List.getElem?_cons_succ] at h1
          refine Option.map_eq_some'.mpr ⟨(a, key), (ih a key).mpr ⟨h1, h2, ?_⟩, rfl⟩
          intro j e hj hje
          exact h3 (j + 1) e (by omega) (by simpa using hje)

theorem locate_sound (t : List key_entry) (ke : input_keymap_entry) (i : Nat)
    (key : key_entry) (h : sparse_keymap_locate_all t ke = some (i, key)) :
    t[i]? = some key := by
  unfold sparse_keymap_locate_all at h
  by_cases hf : ke.flags % 2 = 1
  · rw [if_pos hf] at h
    obtain ⟨h1, h2⟩ := (by_index_eq_some t ke.index i key).mp h
    rw [h1]
    exact h2
  · rw [if_neg hf] at h
    cases hs : input_scancode_to_scalar ke with
    | none => rw [hs] at h; cases h
    | some c =>
      rw [hs] at h
      exact ((from_scancode_eq_some t c i key).mp h).1

theorem get_key_index_eq (t : List key_entry) (i : Nat) (h : i < t.length) :
    sparse_keymap_get_key_index t i = i := by
  induction t generalizing i with
  | nil => simp at h
  | cons key rest ih =>
    cases i with
    | zero => rfl
    | succ n =>
      simp only [sparse_keymap_get_key_index]
      rw [ih n (by simpa using h)]

example :
    sparse_keymap_entry_from_scancode_all
      [⟨KeType.KE_KEY, 7, 1⟩, ⟨KeType.KE_KEY, 7, 2⟩] 7 =
      some (0, ⟨KeType.KE_KEY, 7, 1⟩) := by decide

example :
    (sparse_keymap_setkeycode_all
      ⟨[⟨KeType.KE_KEY, 0x1122, 5⟩, ⟨KeType.KE_KEY, 0x3344, 5⟩,
        ⟨KeType.KE_IGNORE, 0x5566, 0⟩], {5}⟩
      ⟨1, 2, 0, 0, [0x22, 0x11]⟩).2 = Except.ok 5 := by decide


/-- The keybit update block of `sparse_keymap_setkeycode_all`, stated over an
abstract already-mutated table `t2`, old/new keycodes, old/committed entry
types and the "referenced by another entry" predicate `RB`: the resulting
bitmap contains exactly the keycodes referenced by `t2`. -/
theorem keybit_update_mem (t2 : List key_entry) (kb0 : Finset ℕ)
    (old new : Nat) (ot ntk : KeType) (RB : Nat → Prop)
    (hinv0 : ∀ m : Nat, m ∈ kb0 ↔ ((ot = KeType.KE_KEY ∧ old = m) ∨ RB m))
    (href2 : ∀ m : Nat, Ref t2 m ↔ ((ntk = KeType.KE_KEY ∧ new = m) ∨ RB m))
    (k : Nat) :
    k ∈ (if ntk = KeType.KE_KEY then
           if (sparse_keymap_entry_from_keycode t2 old).isSome = true then
             insert new (if ot = KeType.KE_KEY then
                 if (sparse_keymap_entry_from_keycode t2 old).isSome = true then
                   insert old (kb0.erase old)
                 else kb0.erase old
               else kb0)
           else
             (insert new (if ot = KeType.KE_KEY then
                 if (sparse_keymap_entry_from_keycode t2 old).isSome = true then
                   insert old (kb0.erase old)
                 else kb0.erase old
               else kb0)).erase old
         else
           if ot = KeType.KE_KEY then
             if (sparse_keymap_entry_from_keycode t2 old).isSome = true then
               insert old (kb0.erase old)
             else kb0.erase old
           else kb0) ↔ Ref t2 k := by
  have hAiff : (sparse_keymap_entry_from_keycode t2 old).isSome = true ↔
      ((ntk = KeType.KE_KEY ∧ new = old) ∨ RB old) := by
    rw [from_keycode_isSome]; exact href2 old
  rw [href2 k]
  by_cases hAc : (sparse_keymap_entry_from_keycode t2 old).isSome = true <;>
    by_cases hO : ot = KeType.KE_KEY <;>
      by_cases hN : ntk = KeType.KE_KEY <;>
        simp only [hAc, hO, hN, Bool.false_eq_true, Bool.true_eq_false, ite_true,
          ite_false, if_true, if_false, eq_self_iff_true, true_and, false_and,
          false_or, not_true, not_false_iff,
          Finset.mem_insert, Finset.mem_erase, hinv0 k] <;>
      rw [hAiff] at hAc <;>
      · by_cases hko : k = old
        · subst hko
          tauto
        · tauto

/-- C1: for every table satisfying the active-set invariant and every set
operation that returns success, the invariant holds again afterwards: a
keycode has its bit set in `dev->keybit` iff at least one entry of the
mutated table has type `KE_KEY` and that keycode (in particular the old
keycode's bit is cleared exactly when no other `KE_KEY` entry still
references it). -/
theorem setkeycode_preserves_active_set (dev dev' : input_dev)
    (ke : input_keymap_entry) (kc : Nat)
    (hinv : dev.keybit = ActiveKeycodeSet dev.keycode)
    (hset : sparse_keymap_setkeycode_all dev ke = (dev', Except.ok kc)) :
    ∀ k : Nat, k ∈ dev'.keybit ↔
      ∃ e ∈ dev'.keycode, e.type = KeType.KE_KEY ∧ e.keycode = k := by
  intro k
  unfold sparse_keymap_setkeycode_all at hset
  cases hloc : sparse_keymap_locate_all dev.keycode ke with
  | none => rw [hloc] at hset; simp at hset
  | some p =>
    obtain ⟨i, key⟩ := p
    rw [hloc] at hset
    dsimp only [] at hset
    by_cases hlen : 4 < ke.len
    · rw [if_pos hlen] at hset; simp at hset
    · rw [if_neg hlen] at hset
      simp only [Prod.mk.injEq, Except.ok.injEq] at hset
      obtain ⟨hdev, hkc⟩ := hset
      subst hdev
      have hkey : dev.keycode[i]? = some key := locate_sound _ _ _ _ hloc
      have hilen : i < dev.keycode.length := (List.getElem?_eq_some_iff.mp hkey).1
      have hinv0 : ∀ m : Nat, m ∈ dev.keybit ↔
          ((key.type = KeType.KE_KEY ∧ key.keycode = m) ∨ RefBut dev.keycode i m) := by
        intro m
        rw [hinv, mem_ActiveKeycodeSet]
        exact ref_iff_at _ i m key hkey
      exact keybit_update_mem _ dev.keybit key.keycode ke.keycode key.type _
        (RefBut dev.keycode i) hinv0
        (fun m => by rw [ref_set_iff _ i m _ hilen]) k

/-- Witness for C1 at the specification's scenario: table
`[(Key, 0x1122, keycode 5), (Key, 0x3344, keycode 5), (Ignored, 0x5566, 0)]`
with keybit `{5}`, mutating entry 0 to keycode 0 (old keycode 5 returned);
the invariant instance for keycode 5 holds on the resulting state (entry 1
still references 5, so bit 5 stays set). -/
theorem setkeycode_preserves_active_set_witness :
    5 ∈ (sparse_keymap_setkeycode_all
          ⟨[⟨KeType.KE_KEY, 0x1122, 5⟩, ⟨KeType.KE_KEY, 0x3344, 5⟩,
            ⟨KeType.KE_IGNORE, 0x5566, 0⟩], {5}⟩
          ⟨1, 2, 0, 0, [0x22, 0x11]⟩).1.keybit ↔
      ∃ e ∈ (sparse_keymap_setkeycode_all
          ⟨[⟨KeType.KE_KEY, 0x1122, 5⟩, ⟨KeType.KE_KEY, 0x3344, 5⟩,
            ⟨KeType.KE_IGNORE, 0x5566, 0⟩], {5}⟩
          ⟨1, 2, 0, 0, [0x22, 0x11]⟩).1.keycode,
        e.type = KeType.KE_KEY ∧ e.keycode = 5 :=
  setkeycode_preserves_active_set
    ⟨[⟨KeType.KE_KEY, 0x1122, 5⟩, ⟨KeType.KE_KEY, 0x3344, 5⟩,
      ⟨KeType.KE_IGNORE, 0x5566, 0⟩], {5}⟩
    (sparse_keymap_setkeycode_all
      ⟨[⟨KeType.KE_KEY, 0x1122, 5⟩, ⟨KeType.KE_KEY, 0x3344, 5⟩,
        ⟨KeType.KE_IGNORE, 0x5566, 0⟩], {5}⟩
      ⟨1, 2, 0, 0, [0x22, 0x11]⟩).1
    ⟨1, 2, 0, 0, [0x22, 0x11]⟩ 5 (by decide) (by decide) 5


/-- C4: whenever set returns an error (`notFound`: the locator resolved to no
entry, or `invalidLength`: the new scancode is too long), the device state —
the table byte-for-byte and the keybit set — is exactly the input state: the
engine never partially commits a mutation on a failure path. -/
theorem setkeycode_error_no_mutation (dev : input_dev) (ke : input_keymap_entry)
    (e : SetError)
    (herr : (sparse_keymap_setkeycode_all dev ke).2 = Except.error e) :
    (sparse_keymap_setkeycode_all dev ke).1 = dev := by
  unfold sparse_keymap_setkeycode_all at herr ⊢
  cases hloc : sparse_keymap_locate_all dev.keycode ke with
  | none => rfl
  | some p =>
    obtain ⟨i, key⟩ := p
    rw [hloc] at herr
    dsimp only [] at herr ⊢
    by_cases hlen : 4 < ke.len
    · rw [if_pos hlen]
    · rw [if_neg hlen] at herr
      simp at herr

/-- Witness for C4: a by-index set on an empty table fails with the
lookup-failure error and leaves the device state untouched. -/
theorem setkeycode_error_no_mutation_witness :
    (sparse_keymap_setkeycode_all ⟨[], {3}⟩ ⟨1, 0, 0, 0, []⟩).1 = ⟨[], {3}⟩ :=
  setkeycode_error_no_mutation ⟨[], {3}⟩ ⟨1, 0, 0, 0, []⟩ SetError.notFound (by decide)

/-- C2 counterexample: for the entry `(Ignored, keycode 0)` and a set with
`new_keycode = 0`, the code leaves the entry `Ignored` (the `keycode == 0`
branch only demotes `Key`), while the spec's literal if/else-if rule promotes
it to `Key`; the set itself succeeds. -/
theorem setkeycode_transition_counterexample :
    (sparse_keymap_setkeycode_all ⟨[⟨KeType.KE_IGNORE, 0x10, 0⟩], ∅⟩
        ⟨1, 1, 0, 0, [0x10]⟩).2 = Except.ok 0 ∧
      (sparse_keymap_setkeycode_all ⟨[⟨KeType.KE_IGNORE, 0x10, 0⟩], ∅⟩
          ⟨1, 1, 0, 0, [0x10]⟩).1.keycode.map key_entry.type = [KeType.KE_IGNORE] ∧
      specTransition KeType.KE_IGNORE 0 = KeType.KE_KEY ∧
      KeType.KE_IGNORE ≠ KeType.KE_KEY := by decide

/-- C2 (amended): for every set that locates an entry and passes the length
check, the committed entry type follows the code's nested rule: when
`new_keycode = 0`, `Key` becomes `Ignored` and every other type (including
`Ignored`) is unchanged; when `new_keycode ≠ 0`, `Ignored` becomes `Key` and
every other type is unchanged. -/
theorem setkeycode_transition (dev dev' : input_dev) (ke : input_keymap_entry)
    (kc i : Nat) (key : key_entry)
    (hloc : sparse_keymap_locate_all dev.keycode ke = some (i, key))
    (hset : sparse_keymap_setkeycode_all dev ke = (dev', Except.ok kc)) :
    ∃ e, dev'.keycode[i]? = some e ∧
      e.type = (if ke.keycode = 0 then
                  if key.type = KeType.KE_KEY then KeType.KE_IGNORE else key.type
                else
                  if key.type = KeType.KE_IGNORE then KeType.KE_KEY else key.type) := by
  unfold sparse_keymap_setkeycode_all at hset
  rw [hloc] at hset
  dsimp only [] at hset
  by_cases hlen : 4 < ke.len
  · rw [if_pos hlen] at hset; simp at hset
  · rw [if_neg hlen] at hset
    simp only [Prod.mk.injEq, Except.ok.injEq] at hset
    obtain ⟨hdev, hkc⟩ := hset
    subst hdev
    have hkey : dev.keycode[i]? = some key := locate_sound _ _ _ _ hloc
    have hilen : i < dev.keycode.length := (List.getElem?_eq_some_iff.mp hkey).1
    exact ⟨_, List.getElem?_set_self hilen, rfl⟩

/-- Witness for C2-amended: a set with a nonzero keycode on an `Ignored`
entry commits type `Key`. -/
theorem setkeycode_transition_witness :
    ∃ e, (sparse_keymap_setkeycode_all ⟨[⟨KeType.KE_IGNORE, 0x10, 7⟩], ∅⟩
        ⟨1, 1, 0, 9, [0x10]⟩).1.keycode[0]? = some e ∧
      e.type = KeType.KE_KEY :=
  setkeycode_transition ⟨[⟨KeType.KE_IGNORE, 0x10, 7⟩], ∅⟩
    (sparse_keymap_setkeycode_all ⟨[⟨KeType.KE_IGNORE, 0x10, 7⟩], ∅⟩
      ⟨1, 1, 0, 9, [0x10]⟩).1
    ⟨1, 1, 0, 9, [0x10]⟩ 7 0 ⟨KeType.KE_IGNORE, 0x10, 7⟩ (by decide) (by decide)

/-- C3 counterexample: a by-index set locating an entry, with a new scancode
of length 5 (well inside the wire protocol's 0..=32 range), is rejected with
the length error instead of proceeding to mutate: the code's bound is
`sizeof(key->code) = 4`, not 32. -/
theorem setkeycode_length_counterexample :
    (sparse_keymap_setkeycode_all ⟨[⟨KeType.KE_KEY, 0x10, 7⟩], {7}⟩
        ⟨1, 5, 0, 9, [1, 2, 3, 4, 5]⟩).2 = Except.error SetError.invalidLength ∧
      (5 : Nat) ≤ 32 := by decide

/-- C3 (amended): a set on a located entry signals the length error exactly
when the new scancode length exceeds `sizeof(key->code) = 4` bytes (leaving
the state untouched); with length at most 4 it proceeds to mutate and returns
the old keycode. -/
theorem setkeycode_length_check (dev : input_dev) (ke : input_keymap_entry)
    (i : Nat) (key : key_entry)
    (hloc : sparse_keymap_locate_all dev.keycode ke = some (i, key)) :
    (4 < ke.len ∧ sparse_keymap_setkeycode_all dev ke =
        (dev, Except.error SetError.invalidLength)) ∨
      (ke.len ≤ 4 ∧ ∃ dev' : input_dev, sparse_keymap_setkeycode_all dev ke =
        (dev', Except.ok key.keycode)) := by
  unfold sparse_keymap_setkeycode_all
  rw [hloc]
  dsimp only []
  by_cases hlen : 4 < ke.len
  · rw [if_pos hlen]
    exact Or.inl ⟨hlen, rfl⟩
  · rw [if_neg hlen]
    exact Or.inr ⟨by omega, _, rfl⟩

/-- Witness for C3-amended at a located request of length 5: the length error
fires. -/
theorem setkeycode_length_check_witness :
    (4 < (5 : Nat) ∧ sparse_keymap_setkeycode_all ⟨[⟨KeType.KE_KEY, 0x10, 7⟩], {7}⟩
        ⟨1, 5, 0, 9, [1, 2, 3, 4, 5]⟩ =
        (⟨[⟨KeType.KE_KEY, 0x10, 7⟩], {7}⟩, Except.error SetError.invalidLength)) ∨
      ((5 : Nat) ≤ 4 ∧ ∃ dev' : input_dev,
        sparse_keymap_setkeycode_all ⟨[⟨KeType.KE_KEY, 0x10, 7⟩], {7}⟩
          ⟨1, 5, 0, 9, [1, 2, 3, 4, 5]⟩ = (dev', Except.ok 7)) :=
  setkeycode_length_check ⟨[⟨KeType.KE_KEY, 0x10, 7⟩], {7}⟩
    ⟨1, 5, 0, 9, [1, 2, 3, 4, 5]⟩ 0 ⟨KeType.KE_KEY, 0x10, 7⟩ (by decide)


/-- C5 counterexample: the single entry stores its scancode as the 4-byte
code 5 (a get on it reports scancode length 4), yet the 1-byte by-scancode
locator `[0x05]` — a different length denoting the same numeric value —
matches it: comparison is numeric, not exact-byte-length. -/
theorem locate_length_counterexample :
    sparse_keymap_locate_all [⟨KeType.KE_KEY, 5, 0xe0⟩] ⟨0, 1, 0, 0, [5]⟩ =
        some (0, ⟨KeType.KE_KEY, 5, 0xe0⟩) ∧
      (sparse_keymap_getkeycode_all ⟨[⟨KeType.KE_KEY, 5, 0xe0⟩], {0xe0}⟩
          ⟨0, 1, 0, 0, [5]⟩).map input_keymap_entry.len = some 4 ∧
      (1 : Nat) ≠ 4 := by decide

/-- C5 (amended): by-scancode matching is by machine-endian numeric value:
any two by-scancode locators whose scancode bytes convert to the same scalar
locate the same entry, regardless of their (possibly different) lengths;
locator lengths other than 1, 2 and 4 fail the scalar conversion and locate
nothing. -/
theorem locate_by_scalar (table : List key_entry) (ke1 ke2 : input_keymap_entry)
    (v : Nat)
    (h1f : ke1.flags % 2 ≠ 1) (h2f : ke2.flags % 2 ≠ 1)
    (h1 : input_scancode_to_scalar ke1 = some v)
    (h2 : input_scancode_to_scalar ke2 = some v) :
    sparse_keymap_locate_all table ke1 = sparse_keymap_locate_all table ke2 := by
  unfold sparse_keymap_locate_all
  rw [if_neg h1f, if_neg h2f, h1, h2]

/-- Witness for C5-amended: the 1-byte locator `[0x05]` and the 4-byte
locator `[0x05, 0, 0, 0]` (scalar 5 each) locate the same entry. -/
theorem locate_by_scalar_witness :
    sparse_keymap_locate_all [⟨KeType.KE_KEY, 5, 0xe0⟩] ⟨0, 1, 0, 0, [5]⟩ =
      sparse_keymap_locate_all [⟨KeType.KE_KEY, 5, 0xe0⟩] ⟨0, 4, 0, 0, [5, 0, 0, 0]⟩ :=
  locate_by_scalar [⟨KeType.KE_KEY, 5, 0xe0⟩] ⟨0, 1, 0, 0, [5]⟩
    ⟨0, 4, 0, 0, [5, 0, 0, 0]⟩ 5 (by decide) (by decide) (by decide) (by decide)

/-- C6: `find_by_scancode` scans the table in index order and returns the
first matching entry: when entries at indices `i < j` share the same stored
scancode and `i` is the earliest match, a by-scancode lookup for that
scancode resolves to index `i` — never to `j`, which is unreachable by
scancode lookup. -/
theorem from_scancode_first_match (t : List key_entry) (v i j : Nat)
    (key keyj : key_entry)
    (hij : i < j)
    (hi : t[i]? = some key) (hiv : key.code = v)
    (hj : t[j]? = some keyj) (hjv : keyj.code = v)
    (hfirst : ∀ m : Nat, ∀ e : key_entry, m < i → t[m]? = some e → e.code ≠ v) :
    sparse_keymap_entry_from_scancode_all t v = some (i, key) ∧ i ≠ j :=
  ⟨(from_scancode_eq_some t v i key).mpr ⟨hi, hiv, hfirst⟩, by omega⟩

/-- Witness for C6: duplicate scancode 7 at indices 0 and 1; lookup resolves
to index 0. -/
theorem from_scancode_first_match_witness :
    sparse_keymap_entry_from_scancode_all
        [⟨KeType.KE_KEY, 7, 1⟩, ⟨KeType.KE_KEY, 7, 2⟩] 7 =
        some (0, ⟨KeType.KE_KEY, 7, 1⟩) ∧ (0 : Nat) ≠ 1 :=
  from_scancode_first_match [⟨KeType.KE_KEY, 7, 1⟩, ⟨KeType.KE_KEY, 7, 2⟩] 7 0 1
    ⟨KeType.KE_KEY, 7, 1⟩ ⟨KeType.KE_KEY, 7, 2⟩ (by decide) (by decide) (by decide)
    (by decide) (by decide)
    (fun m e hm _ => absurd hm (Nat.not_lt_zero m))

/-- C7: a by-index get succeeds exactly for indices inside `[0, N)` where `N`
is the table length; outside that range the locate fails, which is the
lookup-failure (`NotFound`, C's `-EINVAL`) outcome — so an enumeration over
indices 0, 1, 2, … first fails exactly at index `N`. -/
theorem getkeycode_by_index_range (dev : input_dev) (ke : input_keymap_entry)
    (hflags : ke.flags % 2 = 1) :
    (sparse_keymap_getkeycode_all dev ke).isSome = true ↔
      ke.index < dev.keycode.length := by
  have hl : sparse_keymap_locate_all dev.keycode ke =
      sparse_keymap_entry_by_index_all dev.keycode ke.index := by
    unfold sparse_keymap_locate_all
    rw [if_pos hflags]
  unfold sparse_keymap_getkeycode_all
  rw [hl, ← by_index_isSome dev.keycode ke.index]
  cases h : sparse_keymap_entry_by_index_all dev.keycode ke.index with
  | none => simp
  | some p =>
    obtain ⟨i, key⟩ := p
    simp

/-- Witness for C7 on a two-entry table: the by-index get at index 1
succeeds, 1 being inside `[0, 2)`. -/
theorem getkeycode_by_index_range_witness :
    (sparse_keymap_getkeycode_all
        ⟨[⟨KeType.KE_KEY, 7, 1⟩, ⟨KeType.KE_KEY, 8, 2⟩], {1, 2}⟩
        ⟨1, 0, 1, 0, []⟩).isSome = true ↔
      (1 : Nat) < 2 :=
  getkeycode_by_index_range
    ⟨[⟨KeType.KE_KEY, 7, 1⟩, ⟨KeType.KE_KEY, 8, 2⟩], {1, 2}⟩
    ⟨1, 0, 1, 0, []⟩ (by decide)


theorem leValue_lt (bs : List (Fin 256)) : leValue bs < 256 ^ bs.length := by
  induction bs with
  | nil => simp [leValue]
  | cons b rest ih =>
    simp only [leValue, List.length_cons, pow_succ]
    have hb : b.val < 256 := b.isLt
    nlinarith [ih]

/-- C9: every successful get sets the response's scancode length to exactly
`sizeof(key->code) = 4` and its scancode bytes to the four machine-endian
bytes of the located entry's stored code (the rest of the 32-byte buffer kept
as in the request), whatever the locator kind and however long the request's
scancode was. -/
theorem getkeycode_response_len (dev : input_dev) (ke resp : input_keymap_entry)
    (hget : sparse_keymap_getkeycode_all dev ke = some resp) :
    resp.len = 4 ∧ ∃ i : Nat, ∃ key : key_entry,
      sparse_keymap_locate_all dev.keycode ke = some (i, key) ∧
        resp.scancode = u32le key.code ++ ke.scancode.drop 4 := by
  unfold sparse_keymap_getkeycode_all at hget
  cases hloc : sparse_keymap_locate_all dev.keycode ke with
  | none => rw [hloc] at hget; cases hget
  | some p =>
    obtain ⟨i, key⟩ := p
    rw [hloc] at hget
    dsimp only [] at hget
    cases hget
    exact ⟨rfl, i, key, rfl, rfl⟩

/-- Witness for C9: the by-index get on the entry with code 0x1122 responds
with length 4 and scancode bytes `22 11 00 00`. -/
theorem getkeycode_response_len_witness :
    (⟨1, 4, 0, 5, [0x22, 0x11, 0, 0]⟩ : input_keymap_entry).len = 4 ∧
      ∃ i : Nat, ∃ key : key_entry,
        sparse_keymap_locate_all [⟨KeType.KE_KEY, 0x1122, 5⟩] ⟨1, 0, 0, 0, []⟩ =
            some (i, key) ∧
          (⟨1, 4, 0, 5, [0x22, 0x11, 0, 0]⟩ : input_keymap_entry).scancode =
            u32le key.code ++ ([] : List (Fin 256)).drop 4 :=
  getkeycode_response_len ⟨[⟨KeType.KE_KEY, 0x1122, 5⟩], {5}⟩ ⟨1, 0, 0, 0, []⟩
    ⟨1, 4, 0, 5, [0x22, 0x11, 0, 0]⟩ (by decide)

/-- C10: every successful set stores the new scancode zero-extended: the
mutated entry's stored code equals the value of exactly the request's first
`len` bytes (`key->code = 0` then `memcpy` of `len` bytes), so it is below
`256 ^ len` — the high bytes of the 4-byte code are zero and nothing of the
previously stored code survives. -/
theorem setkeycode_stores_zero_extended (dev dev' : input_dev)
    (ke : input_keymap_entry) (kc i : Nat) (key : key_entry)
    (hloc : sparse_keymap_locate_all dev.keycode ke = some (i, key))
    (hset : sparse_keymap_setkeycode_all dev ke = (dev', Except.ok kc)) :
    ∃ e, dev'.keycode[i]? = some e ∧
      e.code = leValue (ke.scancode.take ke.len) ∧
      e.code < 256 ^ ke.len := by
  unfold sparse_keymap_setkeycode_all at hset
  rw [hloc] at hset
  dsimp only [] at hset
  by_cases hlen : 4 < ke.len
  · rw [if_pos hlen] at hset; simp at hset
  · rw [if_neg hlen] at hset
    simp only [Prod.mk.injEq, Except.ok.injEq] at hset
    obtain ⟨hdev, hkc⟩ := hset
    subst hdev
    have hkey : dev.keycode[i]? = some key := locate_sound _ _ _ _ hloc
    have hilen : i < dev.keycode.length := (List.getElem?_eq_some_iff.mp hkey).1
    refine ⟨_, List.getElem?_set_self hilen, rfl, ?_⟩
    calc leValue (ke.scancode.take ke.len) < 256 ^ (ke.scancode.take ke.len).length :=
          leValue_lt _
    _ ≤ 256 ^ ke.len := by
        refine Nat.pow_le_pow_right (by omega) ?_
        simp [List.length_take]

/-- Witness for C10: overwriting the entry whose stored code was 0xAABBCCDD
with the 2-byte scancode `22 11` stores code 0x1122 < 256². -/
theorem setkeycode_stores_zero_extended_witness :
    ∃ e, (sparse_keymap_setkeycode_all ⟨[⟨KeType.KE_KEY, 0xAABBCCDD, 5⟩], {5}⟩
        ⟨1, 2, 0, 7, [0x22, 0x11]⟩).1.keycode[0]? = some e ∧
      e.code = leValue (([0x22, 0x11] : List (Fin 256)).take 2) ∧
      e.code < 256 ^ 2 :=
  setkeycode_stores_zero_extended ⟨[⟨KeType.KE_KEY, 0xAABBCCDD, 5⟩], {5}⟩
    (sparse_keymap_setkeycode_all ⟨[⟨KeType.KE_KEY, 0xAABBCCDD, 5⟩], {5}⟩
      ⟨1, 2, 0, 7, [0x22, 0x11]⟩).1
    ⟨1, 2, 0, 7, [0x22, 0x11]⟩ 5 0 ⟨KeType.KE_KEY, 0xAABBCCDD, 5⟩
    (by decide) (by decide)


/-- The options of the evmap client recognised by `getopt(argc, argv,
"d:ps:h")`, in command-line order; `optBad` is any unrecognised option. -/
inductive CliOpt
  | optD (device : String)
  | optP
  | optS (arg : String)
  | optH
  | optBad
deriving DecidableEq, Repr

/-- The client's observable state while processing options: whether a device
has been opened (`dev >= 0`), whether an action was performed (`act`), and
the lines printed so far to stdout and stderr. -/
structure CliState where
  dev : Bool
  act : Bool
  out : List String
  err : List String
deriving DecidableEq, Repr

/-- The help message printed by `usage`, modelled as a single line. -/
def usageText : String := "evdev_map -- manipulate evdev keycode tables"

/-- `usage(ret)`: print the help to stderr when `ret != 0`, to stdout when
`ret == 0`; then `exit(ret)` only when `ret != 0` (`some ret`), otherwise
return to the caller (`none`). -/
def usage (ret : Nat) (s : CliState) : CliState × Option Nat :=
  if ret ≠ 0 then ({ s with err := s.err ++ [usageText] }, some ret)
  else ({ s with out := s.out ++ [usageText] }, none)

/-- One iteration of the option loop of the client's `main`.  The device I/O
behind `-d`, `-p` and `-s` is external (open(2) plus the two ioctls) and
modelled as succeeding; `-p` and `-s` first run `check_device`, which prints
to stderr and exits 1 when no device is open, and on success set `act`. -/
def evmapStep (s : CliState) : CliOpt → CliState × Option Nat
  | CliOpt.optD _ => ({ s with dev := true }, none)
  | CliOpt.optP =>
    if s.dev then ({ s with act := true, out := s.out ++ ["keymap"] }, none)
    else ({ s with err := s.err ++ ["No device opened"] }, some 1)
  | CliOpt.optS _ =>
    if s.dev then ({ s with act := true }, none)
    else ({ s with err := s.err ++ ["No device opened"] }, some 1)
  | CliOpt.optH => usage 0 s
  | CliOpt.optBad => usage 1 s

/-- The `getopt` loop of `main`: process the options in order, stopping at
the first `exit`. -/
def evmapLoop : CliState → List CliOpt → CliState × Option Nat
  | s, [] => (s, none)
  | s, o :: rest =>
    match evmapStep s o with
    | (s2, some code) => (s2, some code)
    | (s2, none) => evmapLoop s2 rest

/-- `main` of the evmap client: run the option loop; afterwards, when
non-option arguments are left over or no action (`-p`/`-s`) was performed,
call `usage(1)` — print the usage to stderr and exit 1; otherwise exit 0. -/
def evmapMain (opts : List CliOpt) (extraArgs : Bool) : CliState × Nat :=
  match evmapLoop ⟨false, false, [], []⟩ opts with
  | (s, some code) => (s, code)
  | (s, none) =>
    if extraArgs ∨ s.act = false then
      match usage 1 s with
      | (s2, some code) => (s2, code)
      | (s2, none) => (s2, 0)
    else (s, 0)

/-- C8 counterexample: invoking the client with only `-h` does print the help
(to stdout, by `usage(0)`, which returns), but the process exits with status
1, not 0: `-h` does not set `act`, so the final no-action check runs
`usage(1)`. -/
theorem evmap_help_exit_counterexample :
    (evmapMain [CliOpt.optH] false).2 = 1 ∧ (1 : Nat) ≠ 0 ∧
      usageText ∈ (evmapMain [CliOpt.optH] false).1.out := by decide

/-- C8 (amended): with only `-h` and no `-p`/`-s` action, the help is printed
to stdout by `usage(0)`, then the no-action check prints the usage once more
to stderr and the process exits with status 1. -/
theorem evmap_help_exit :
    evmapMain [CliOpt.optH] false =
      (⟨false, false, [usageText], [usageText]⟩, 1) := by decide
